import Mathlib

/-!
Verification of the cros_ec host-side EC driver interface (src/include/cros_ec.h)
and the microblaze SPL boot-order hook (src/arch/microblaze/cpu/spl.c).

The repository ships the driver's public header and the SPL file; the bodies of the
cros_ec functions live outside the given sources, so the protocol layer below is
modelled from the specification (and, where the header documents a concrete
contract, from that doc comment), while `board_boot_order` is translated directly
from the C source.
-/

/-- Error taxonomy of the driver, from the specification's error-handling design:
not-initialized, negotiation-failed, handshake mismatch (carrying the received
value), request-too-large, transport-error, corrupt-response, unsupported,
out-of-range, locked, and an EC-reported refusal status code. -/
inductive EcError where
  | notInited
  | negotiationFailed
  | handshakeMismatch (received : Nat)
  | requestTooLarge
  | transportError
  | corruptResponse
  | unsupported
  | outOfRange
  | locked
  | ecRefused (code : Nat)
deriving DecidableEq

/-- Device state, from struct cros_ec_dev (src/include/cros_ec.h lines 18-37).
The transport handle and the two dword-aligned scratch buffers are memory-layout
details not representable here; the fields the claims depend on are kept:
the negotiated protocol version (0 means not yet negotiated), the
optimise_flash_write flag, and the optional EC interrupt line ec_int
(none means no line is wired, some b means the line currently reads b). -/
structure cros_ec_dev where
  protocol_version : Nat
  optimise_flash_write : Bool
  ec_int : Option Bool
deriving DecidableEq

/-- Modelled from the spec: cros_ec_calc_checksum (declared at
src/include/cros_ec.h:300-307 with its body outside the given sources) computes a
simple 8-bit checksum of a data block, returning a value in 0..255. -/
def cros_ec_calc_checksum (data : List Nat) : Nat :=
  data.sum % 256

/-- Modelled from the spec: the buffer-capacity constant MSG_BYTES comes from
cros_ec_message.h, which is outside the given sources; only its role as the
fixed capacity bound matters to the claims. -/
def MSG_BYTES : Nat := 1024

/-- Modelled from the spec: the version tag placed at the start of a v2+ (packet
style) request frame. -/
def EC_HOST_REQUEST_VERSION : Nat := 3

/-- Modelled from the spec: the v2+ (packet style) request frame built by
dispatch: version tag, command id, command version, payload length, payload
bytes, and a trailing 8-bit checksum computed as the two's-complement negation
of the sum of all preceding header and payload bytes modulo 256. -/
def buildFrameV2 (cmd cmdVersion : Nat) (payload : List Nat) : List Nat :=
  let body := EC_HOST_REQUEST_VERSION :: cmd % 256 :: cmdVersion % 256 ::
    payload.length % 256 :: payload
  body ++ [(256 - cros_ec_calc_checksum body) % 256]

/-- Modelled from the spec: response checksum validation of dispatch; the
response validates exactly when its header, payload and embedded checksum bytes
sum to 0 modulo 256. -/
def checksumOk (resp : List Nat) : Bool :=
  resp.sum % 256 == 0

/-- Transport capability, from struct dm_cros_ec_ops (src/include/cros_ec.h
lines 227-283): an optional protocol version check, the legacy command style,
the packet style (a fully framed packet in, raw response bytes out), and the
optional switches query (none models the -ENOSYS case). Transport outcomes are
abstracted as Except Unit results. -/
structure EcTransport where
  check_version : Option (Except Unit Nat)
  command : Nat → Nat → List Nat → Except Unit (List Nat)
  packet : List Nat → Except Unit (List Nat)
  get_switches : Option Nat

/-- One transport transaction issued by dispatch: a legacy command call or a
packet call carrying the full frame. -/
inductive EcTrans where
  | cmdCall (cmd : Nat) (payload : List Nat)
  | pktCall (frame : List Nat)
deriving DecidableEq

/-- Modelled from the spec: the command dispatch core (ec_command, whose body is
outside the given sources). A device that has not completed negotiation
(protocol_version = 0) is rejected with the distinct not-initialized error
before any transport traffic; an oversized request is rejected with
request-too-large; protocol version 1 delegates the raw payload to the legacy
command operation; version 2 and above builds a checksummed packet frame,
invokes the packet operation, validates the response checksum and unwraps the
payload, failing with corrupt-response when the checksum does not validate.
The result carries the response (or error), the device record (dispatch never
writes the protocol version) and the list of transport transactions issued. -/
def ec_command (dev : cros_ec_dev) (t : EcTransport) (cmd cmdVersion : Nat)
    (payload : List Nat) :
    Except EcError (List Nat) × cros_ec_dev × List EcTrans :=
  if dev.protocol_version = 0 then (.error .notInited, dev, [])
  else if MSG_BYTES < payload.length + 5 then (.error .requestTooLarge, dev, [])
  else if dev.protocol_version = 1 then
    match t.command cmd cmdVersion payload with
    | .error _ => (.error .transportError, dev, [.cmdCall cmd payload])
    | .ok resp => (.ok resp, dev, [.cmdCall cmd payload])
  else
    let frame := buildFrameV2 cmd cmdVersion payload
    match t.packet frame with
    | .error _ => (.error .transportError, dev, [.pktCall frame])
    | .ok resp =>
        if checksumOk resp then (.ok ((resp.drop 2).dropLast), dev, [.pktCall frame])
        else (.error .corruptResponse, dev, [.pktCall frame])

/-- Modelled from the spec: the fixed 4-byte input value sent by the hello
handshake (the concrete word is not given in the available sources; the claims
depend only on it being fixed). -/
def HELLO_IN_DATA : Nat := 0xa0b0c0d0

/-- Modelled from the spec: the additive constant of the documented fixed
transform the EC applies to the hello input. -/
def HELLO_OUT_ADD : Nat := 0x01020304

/-- Modelled from the spec: the documented fixed transform of the hello input,
a 32-bit addition of the fixed constant. -/
def helloTransform (x : Nat) : Nat := (x + HELLO_OUT_ADD) % 2 ^ 32

/-- Modelled from the spec: cros_ec_hello (declared at src/include/cros_ec.h
lines 562-572 with its body outside the given sources). The respond argument
abstracts dispatching the hello command: it yields the EC's 32-bit output word
for the sent input word, or a transport failure. A transport failure is
propagated as negotiation-failed; an unexpected value fails with a handshake
mismatch error that carries the actually-received value (the handshakep
out-parameter of the C declaration). -/
def cros_ec_hello (respond : Nat → Except Unit Nat) : Except EcError Unit :=
  match respond HELLO_IN_DATA with
  | .error _ => .error .negotiationFailed
  | .ok v =>
      if v = helloTransform HELLO_IN_DATA then .ok ()
      else .error (.handshakeMismatch v)

/-- Modelled from the spec: protocol negotiation (cros_ec_register, body outside
the given sources). If the transport capability exposes a dedicated version
check its answer is adopted; otherwise the hello handshake decides. On success
the protocol version is recorded on the device; on any failure the error is
propagated and no updated device is produced, so the device remains
uninitialized. -/
def cros_ec_register (dev : cros_ec_dev) (check_version : Option (Except Unit Nat))
    (respond : Nat → Except Unit Nat) : Except EcError cros_ec_dev :=
  match check_version with
  | some (.ok v) => .ok { dev with protocol_version := v }
  | some (.error _) => .error .negotiationFailed
  | none =>
      match cros_ec_hello respond with
      | .ok _ => .ok { dev with protocol_version := 3 }
      | .error e => .error e

/-- A transport whose operations all fail, used to instantiate universally
quantified transports in witnesses. -/
def trivialTransport : EcTransport where
  check_version := none
  command := fun _ _ _ => .error ()
  packet := fun _ => .error ()
  get_switches := none

theorem buildFrameV2_sum (cmd v : Nat) (p : List Nat) :
    (buildFrameV2 cmd v p).sum % 256 = 0 := by
  simp only [buildFrameV2, cros_ec_calc_checksum, List.sum_append, List.sum_cons,
    List.sum_nil]
  omega

theorem sum_set_add (l : List Nat) (i b : Nat) (h : i < l.length) :
    (l.set i b).sum + l[i] = l.sum + b := by
  induction l generalizing i with
  | nil => simp at h
  | cons x xs ih =>
    cases i with
    | zero => simp [List.set]; omega
    | succ j =>
      simp only [List.set, List.sum_cons, List.getElem_cons_succ]
      have hj : j < xs.length := by simpa using h
      have := ih j hj
      omega

/-- Claim C1: for every request payload within the buffer capacity limit,
dispatch under v2 (packet) framing builds a frame whose trailing 8-bit checksum
is the two's-complement negation of the sum of all preceding header and payload
bytes modulo 256, so header, payload and checksum bytes sum to 0 mod 256; and
every response whose embedded checksum does not validate, in particular any
well-formed response with a single byte corrupted, makes dispatch fail with the
corrupt-response error rather than return data. -/
theorem c1_dispatch_checksum (dev : cros_ec_dev) (t : EcTransport)
    (cmd v : Nat) (p : List Nat)
    (hv : 2 ≤ dev.protocol_version) (hcap : p.length + 5 ≤ MSG_BYTES) :
    ((buildFrameV2 cmd v p).sum % 256 = 0 ∧
      (ec_command dev t cmd v p).2.2 = [.pktCall (buildFrameV2 cmd v p)]) ∧
    (∀ resp : List Nat, checksumOk resp = false →
      (ec_command dev { t with packet := fun _ => .ok resp } cmd v p).1 =
        .error .corruptResponse) ∧
    (∀ (resp : List Nat) (i b : Nat), checksumOk resp = true →
      (∀ x ∈ resp, x < 256) → ∀ hi : i < resp.length, b < 256 → b ≠ resp[i] →
      (ec_command dev { t with packet := fun _ => .ok (resp.set i b) } cmd v p).1 =
        .error .corruptResponse) := by
  have h0 : ¬dev.protocol_version = 0 := by omega
  have h1 : ¬dev.protocol_version = 1 := by omega
  have hc : ¬MSG_BYTES < p.length + 5 := by omega
  refine ⟨⟨buildFrameV2_sum cmd v p, ?_⟩, ?_, ?_⟩
  · simp only [ec_command, h0, h1, hc, if_false]
    cases t.packet (buildFrameV2 cmd v p) with
    | error e => rfl
    | ok resp =>
      simp only
      split <;> rfl
  · intro resp hbad
    simp only [ec_command, h0, h1, hc, if_false, hbad, Bool.false_eq_true]
  · intro resp i b hok hbytes hi hb hne
    have hset : checksumOk (resp.set i b) = false := by
      have hsum : resp.sum % 256 = 0 := by
        simpa [checksumOk] using hok
      have hadd := sum_set_add resp i b hi
      have hlt : resp[i] < 256 := hbytes _ (List.getElem_mem hi)
      simp only [checksumOk, beq_eq_false_iff_ne, ne_eq]
      omega
    simp only [ec_command, h0, h1, hc, if_false, hset, Bool.false_eq_true]

theorem c1_dispatch_checksum_witness :
    2 ≤ (3 : Nat) ∧ (buildFrameV2 1 0 [1, 2]).sum % 256 = 0 :=
  ⟨by decide,
    (c1_dispatch_checksum ⟨3, false, none⟩ trivialTransport 1 0 [1, 2]
      (by decide) (by decide)).1.1⟩

/-- Claim C2: a data (command-issuing) operation on a device whose negotiation
has not completed fails with the distinct not-initialized error and issues no
transport traffic, for every transport state; and dispatch never writes the
device record, in particular the protocol version changes only through the
explicit negotiation call. -/
theorem c2_negotiation_gating (dev : cros_ec_dev) (t : EcTransport)
    (cmd v : Nat) (p : List Nat) :
    (dev.protocol_version = 0 →
      ec_command dev t cmd v p = (.error .notInited, dev, [])) ∧
    (ec_command dev t cmd v p).2.1 = dev := by
  constructor
  · intro h
    simp [ec_command, h]
  · unfold ec_command
    split
    · rfl
    · split
      · rfl
      · split
        · split <;> rfl
        · simp only
          split
          · rfl
          · split <;> rfl

theorem c2_negotiation_gating_witness :
    ec_command ⟨0, false, none⟩ trivialTransport 1 0 [] =
      (.error .notInited, ⟨0, false, none⟩, []) :=
  (c2_negotiation_gating ⟨0, false, none⟩ trivialTransport 1 0 []).1 rfl

/-- Claim C3: the hello handshake sends the fixed input value; an EC answering
with the documented fixed transform of that value succeeds; any other returned
value fails with a handshake-mismatch error carrying the actually-received
value; and a transport error is propagated as negotiation-failed, leaving the
device uninitialized (no updated device is produced). -/
theorem c3_hello_handshake :
    (cros_ec_hello (fun x => .ok (helloTransform x)) = .ok ()) ∧
    (∀ v : Nat, v ≠ helloTransform HELLO_IN_DATA →
      cros_ec_hello (fun _ => .ok v) = .error (.handshakeMismatch v)) ∧
    (∀ dev : cros_ec_dev,
      cros_ec_register dev none (fun _ => .error ()) =
        .error .negotiationFailed) := by
  refine ⟨by simp [cros_ec_hello], fun v hv => ?_, fun dev => ?_⟩
  · simp [cros_ec_hello, hv]
  · simp [cros_ec_register, cros_ec_hello]

theorem c3_hello_handshake_witness :
    (0 : Nat) ≠ helloTransform HELLO_IN_DATA ∧
    cros_ec_hello (fun _ => .ok 0) = .error (.handshakeMismatch 0) :=
  ⟨by decide, c3_hello_handshake.2.1 0 (by decide)⟩

/-- Modelled from the header contract: cros_ec_interrupt_pending
(src/include/cros_ec.h lines 129-138, body outside the given sources) reads the
status of the external interrupt line connected to the EC; the header states
that if no external interrupt is configured it always returns 1, and that a
return of 0 means no interrupt is pending (a negative value would be an
error). -/
def cros_ec_interrupt_pending (dev : cros_ec_dev) : Int :=
  match dev.ec_int with
  | none => 1
  | some b => if b then 1 else 0

/-- Claim C7 counterexample: on a device with no interrupt line configured the
query returns 1, the interrupt-pending answer, not 0, the no-interrupt-pending
answer the claim requires. -/
theorem c7_counterexample :
    cros_ec_interrupt_pending ⟨3, false, none⟩ ≠ 0 ∧
    cros_ec_interrupt_pending ⟨3, false, none⟩ = 1 := by
  constructor <;> decide

/-- Claim C7 (amended): the interrupt-pending query is a non-blocking poll; for
every device with no interrupt line configured it reports that an interrupt is
pending (it always returns 1, as the header documents) rather than an error, so
polling-only operation remains valid. -/
theorem c7_interrupt_pending (dev : cros_ec_dev) (h : dev.ec_int = none) :
    cros_ec_interrupt_pending dev = 1 ∧ ¬cros_ec_interrupt_pending dev < 0 := by
  simp [cros_ec_interrupt_pending, h]

theorem c7_interrupt_pending_witness :
    cros_ec_interrupt_pending ⟨0, false, none⟩ = 1 ∧
    ¬cros_ec_interrupt_pending ⟨0, false, none⟩ < 0 :=
  c7_interrupt_pending ⟨0, false, none⟩ rfl

/-- Modelled from the header contract: cros_ec_get_events_b
(src/include/cros_ec.h lines 468-473, body outside the given sources) returns
the 64-bit event mask B, and, as the header documents, the default value 0 if
the mask could not be read. The read argument abstracts the dispatch outcome. -/
def cros_ec_get_events_b (read : Except Unit Nat) : Nat :=
  match read with
  | .ok v => v % 2 ^ 64
  | .error _ => 0

/-- Modelled from the header contract: cros_ec_get_host_events
(src/include/cros_ec.h lines 168-175, body outside the given sources) reads the
32-bit host event mask into a caller-supplied destination; per the header the
destination is not changed on error. The state-passing model takes the current
destination value and the dispatch outcome and returns the result together with
the destination's new value. -/
def cros_ec_get_host_events (dest : Nat) (read : Except Unit Nat) :
    Except EcError Unit × Nat :=
  match read with
  | .error _ => (.error .transportError, dest)
  | .ok v => (.ok (), v % 2 ^ 32)

/-- Claim C8 counterexample: a failed read of event mask B is returned as the
default mask value 0, indistinguishable from a successful read of an empty
mask, so this operation does downgrade an error to a default value. -/
theorem c8_counterexample :
    cros_ec_get_events_b (.error ()) = 0 ∧
    cros_ec_get_events_b (.error ()) = cros_ec_get_events_b (.ok 0) := by
  constructor <;> rfl

/-- Claim C8 (amended): the modelled operations return either a success value
or a tagged error distinguishable by category and never retry internally, with
the documented exception of cros_ec_get_events_b, which returns the default
mask value 0 when the mask could not be read; cros_ec_get_host_events, by
contrast, propagates a failed read as an error. -/
theorem c8_error_propagation :
    (∀ e : Unit, cros_ec_get_events_b (.error e) = 0) ∧
    (∀ v : Nat, cros_ec_get_events_b (.ok v) = v % 2 ^ 64) ∧
    (∀ (dest : Nat) (e : Unit),
      cros_ec_get_host_events dest (.error e) = (.error .transportError, dest)) := by
  exact ⟨fun _ => rfl, fun _ => rfl, fun _ _ => rfl⟩

/-- Claim C9: cros_ec_get_host_events writes the caller-supplied destination
only on success: every call either succeeds or leaves the destination value
unchanged, and a failed read returns the transport error with the destination
untouched. -/
theorem c9_host_events_dest (dest : Nat) (read : Except Unit Nat) :
    ((cros_ec_get_host_events dest read).1 = .ok () ∨
      (cros_ec_get_host_events dest read).2 = dest) ∧
    (∀ e : Unit,
      cros_ec_get_host_events dest (.error e) = (.error .transportError, dest)) := by
  cases read with
  | error e => exact ⟨Or.inr rfl, fun _ => rfl⟩
  | ok v => exact ⟨Or.inl rfl, fun _ => rfl⟩

/-- Boot-device identifiers used by the microblaze SPL. Their numeric values
come from asm/spl.h, which is outside the given sources; the claim depends only
on which symbol is stored, so they are represented as distinct constants. -/
def BOOT_DEVICE_RAM : Nat := 1

/-- Boot-device identifier for NOR flash (see BOOT_DEVICE_RAM). -/
def BOOT_DEVICE_NOR : Nat := 2

/-- Boot-device identifier for SPI flash (see BOOT_DEVICE_RAM). -/
def BOOT_DEVICE_SPI : Nat := 3

/-- Translated from board_boot_order in src/arch/microblaze/cpu/spl.c lines
19-24: the spl_boot_list array is modelled as a function from index to entry,
and the function returns the array after the three assignments. -/
def board_boot_order (spl_boot_list : Nat → Nat) : Nat → Nat :=
  fun i =>
    if i = 0 then BOOT_DEVICE_NOR
    else if i = 1 then BOOT_DEVICE_RAM
    else if i = 2 then BOOT_DEVICE_SPI
    else spl_boot_list i

/-- Claim C10: board_boot_order sets the first three entries of spl_boot_list
to BOOT_DEVICE_NOR, BOOT_DEVICE_RAM and BOOT_DEVICE_SPI in that order and
writes no other entry of the array. -/
theorem c10_board_boot_order (spl_boot_list : Nat → Nat) :
    board_boot_order spl_boot_list 0 = BOOT_DEVICE_NOR ∧
    board_boot_order spl_boot_list 1 = BOOT_DEVICE_RAM ∧
    board_boot_order spl_boot_list 2 = BOOT_DEVICE_SPI ∧
    (∀ i : Nat, 3 ≤ i → board_boot_order spl_boot_list i = spl_boot_list i) := by
  refine ⟨rfl, rfl, rfl, fun i hi => ?_⟩
  have h0 : ¬i = 0 := by omega
  have h1 : ¬i = 1 := by omega
  have h2 : ¬i = 2 := by omega
  simp [board_boot_order, h0, h1, h2]

theorem c10_board_boot_order_witness :
    board_boot_order (fun _ => 7) 0 = BOOT_DEVICE_NOR ∧
    board_boot_order (fun _ => 7) 5 = 7 :=
  ⟨(c10_board_boot_order (fun _ => 7)).1,
    (c10_board_boot_order (fun _ => 7)).2.2.2 5 (by decide)⟩

/-- Size of one vstore slot; the numeric value of EC_VSTORE_SLOT_SIZE comes from
ec_commands.h, which is outside the given sources. -/
def EC_VSTORE_SLOT_SIZE : Nat := 64

/-- EC-side vstore state: the number of implemented slots, the bitmask of
locked slots, and the slot contents. -/
structure VStoreEC where
  slotCount : Nat
  lockedMask : Nat
  slots : Nat → List Nat

/-- One vstore-related transport transaction. -/
inductive VTrans where
  | infoCall
  | readCall (slot : Nat)
  | writeCall (slot : Nat) (data : List Nat)
deriving DecidableEq

/-- Modelled from the header contract: cros_ec_vstore_info
(src/include/cros_ec.h lines 611-618, body outside the given sources) queries
the EC and returns the number of implemented slots together with the mask of
locked slots, issuing one transaction. -/
def cros_ec_vstore_info (ec : VStoreEC) :
    Except EcError (Nat × Nat) × List VTrans :=
  (.ok (ec.slotCount, ec.lockedMask), [.infoCall])

/-- Modelled from the header contract: cros_ec_vstore_write
(src/include/cros_ec.h lines 630-644, body outside the given sources). The
header caps the data size at EC_VSTORE_SLOT_SIZE and states that it is the
caller's responsibility to check the number of implemented slots by querying
the vstore info, so apart from the size cap the function performs no local
check: it dispatches the write and the EC refuses an out-of-range slot
(status code 3, invalid parameter) or a locked slot (status code 4, access
denied); only an unlocked in-range slot is stored. -/
def cros_ec_vstore_write (ec : VStoreEC) (slot : Nat) (data : List Nat) :
    Except EcError Unit × VStoreEC × List VTrans :=
  if EC_VSTORE_SLOT_SIZE < data.length then (.error .requestTooLarge, ec, [])
  else if ec.slotCount ≤ slot then
    (.error (.ecRefused 3), ec, [.writeCall slot data])
  else if ec.lockedMask / 2 ^ slot % 2 = 1 then
    (.error (.ecRefused 4), ec, [.writeCall slot data])
  else
    (.ok (), { ec with slots := fun s => if s = slot then data else ec.slots s },
      [.writeCall slot data])

/-- Claim C4 counterexample: on an EC reporting one slot with slot 0 locked,
writing slot 1 (an index at or beyond the reported count) issues a transport
transaction and does not fail with the local out-of-range error, and writing
the locked slot 0 likewise issues a transport transaction and does not fail
with the local locked error, contradicting the claimed local pre-dispatch
checks. -/
theorem c4_counterexample :
    (cros_ec_vstore_write ⟨1, 1, fun _ => []⟩ 1 [0]).2.2 = [.writeCall 1 [0]] ∧
    (cros_ec_vstore_write ⟨1, 1, fun _ => []⟩ 1 [0]).1 ≠ .error .outOfRange ∧
    (cros_ec_vstore_write ⟨1, 1, fun _ => []⟩ 0 [0]).2.2 = [.writeCall 0 [0]] ∧
    (cros_ec_vstore_write ⟨1, 1, fun _ => []⟩ 0 [0]).1 ≠ .error .locked := by
  refine ⟨rfl, ?_, rfl, ?_⟩
  · intro h
    rw [show (cros_ec_vstore_write ⟨1, 1, fun _ => []⟩ 1 [0]).1 =
      .error (.ecRefused 3) from rfl] at h
    injection h with h2
    exact absurd h2 (by decide)
  · intro h
    rw [show (cros_ec_vstore_write ⟨1, 1, fun _ => []⟩ 0 [0]).1 =
      .error (.ecRefused 4) from rfl] at h
    injection h with h2
    exact absurd h2 (by decide)

/-- Claim C4 (amended): cros_ec_vstore_write performs no local slot-count or
lock check (the header assigns the count check to the caller); a write to a
slot at or beyond the reported count is dispatched (one transport transaction)
and fails with the EC's invalid-parameter refusal, and a write to a slot
reported as locked is dispatched and fails with the EC's access-denied
refusal, so a locked-slot write never silently succeeds. -/
theorem c4_vstore_write (ec : VStoreEC) (slot : Nat) (data : List Nat)
    (hsz : data.length ≤ EC_VSTORE_SLOT_SIZE) :
    (ec.slotCount ≤ slot →
      cros_ec_vstore_write ec slot data =
        (.error (.ecRefused 3), ec, [.writeCall slot data])) ∧
    (slot < ec.slotCount → ec.lockedMask / 2 ^ slot % 2 = 1 →
      cros_ec_vstore_write ec slot data =
        (.error (.ecRefused 4), ec, [.writeCall slot data])) := by
  have hc : ¬EC_VSTORE_SLOT_SIZE < data.length := by omega
  constructor
  · intro hslot
    simp [cros_ec_vstore_write, hc, hslot]
  · intro hslot hlock
    have hns : ¬ec.slotCount ≤ slot := by omega
    simp [cros_ec_vstore_write, hc, hns, hlock]

theorem c4_vstore_write_witness :
    cros_ec_vstore_write ⟨1, 1, fun _ => []⟩ 0 [5] =
      (.error (.ecRefused 4), ⟨1, 1, fun _ => []⟩, [.writeCall 0 [5]]) :=
  (c4_vstore_write ⟨1, 1, fun _ => []⟩ 0 [5] (by decide)).2 (by decide) (by decide)

/-- The bytes of an EC flash (modelled as a total function from address to byte
value) from offset off for n bytes. -/
def readBytes (f : Nat → Nat) (off n : Nat) : List Nat :=
  (List.range n).map fun i => f (off + i)

/-- The flash contents after storing the data block at offset off; addresses
outside the written range keep their previous value. -/
def writeBytes (f : Nat → Nat) (off : Nat) (data : List Nat) : Nat → Nat :=
  fun a => if a < off then f a else data.getD (a - off) (f a)

/-- EC-side flash state: the contents, the flash size, and the maximum number
of bytes per transaction (discovered via the flash-info query, per the spec). -/
structure ECFlash where
  contents : Nat → Nat
  size : Nat
  burst : Nat

/-- One flash transport transaction: a read-chunk request or a write-chunk
request carrying the chunk data. -/
inductive FlashTrans where
  | readChunk (offset len : Nat)
  | writeChunk (offset : Nat) (data : List Nat)
deriving DecidableEq

/-- Whether a flash transaction is a write chunk. -/
def FlashTrans.isWrite : FlashTrans → Bool
  | .writeChunk _ _ => true
  | _ => false

/-- Whether a flash transaction is a read chunk. -/
def FlashTrans.isRead : FlashTrans → Bool
  | .readChunk _ _ => true
  | _ => false

/-- Modelled from the spec: the chunking loop of the flash write — each
iteration takes min(remaining, burst) bytes; with the write-optimisation flag
set it first reads the corresponding destination bytes and skips transmission
of a chunk whose current content already equals the requested content,
otherwise it issues one write-chunk transaction for the chunk. Returns the
final contents together with the transactions issued. -/
def flashWriteGo (optimise : Bool) (burst : Nat) (f : Nat → Nat) (off : Nat)
    (data : List Nat) : (Nat → Nat) × List FlashTrans :=
  if h : burst = 0 ∨ data = [] then (f, [])
  else
    let chunk := data.take burst
    if optimise then
      if readBytes f off chunk.length = chunk then
        let rest := flashWriteGo optimise burst f (off + chunk.length)
          (data.drop burst)
        (rest.1, .readChunk off chunk.length :: rest.2)
      else
        let rest := flashWriteGo optimise burst (writeBytes f off chunk)
          (off + chunk.length) (data.drop burst)
        (rest.1, .readChunk off chunk.length :: .writeChunk off chunk :: rest.2)
    else
      let rest := flashWriteGo optimise burst (writeBytes f off chunk)
        (off + chunk.length) (data.drop burst)
      (rest.1, .writeChunk off chunk :: rest.2)
termination_by data.length
decreasing_by
  all_goals
    push_neg at h
    have hd : data.length ≠ 0 := fun hh => h.2 (List.eq_nil_of_length_eq_zero hh)
    simp only [List.length_drop]
    omega

/-- Modelled from the spec: the chunking loop of the flash read — each
iteration requests min(remaining, burst) bytes and appends the returned
payload at the correct relative offset. Returns the assembled bytes together
with the transactions issued. -/
def flashReadGo (burst : Nat) (f : Nat → Nat) (off n : Nat) :
    List Nat × List FlashTrans :=
  if h : burst = 0 ∨ n = 0 then ([], [])
  else
    let c := min burst n
    let rest := flashReadGo burst f (off + c) (n - c)
    (readBytes f off c ++ rest.1, .readChunk off c :: rest.2)
termination_by n
decreasing_by
  push_neg at h
  omega

/-- Modelled from the spec: cros_ec_flash_write (declared at
src/include/cros_ec.h lines 340-359, body outside the given sources) — writes
an arbitrary amount of data by repeatedly writing chunks bounded by the
per-transaction maximum; an out-of-range request fails before any transport
traffic; the write-optimisation flag of the device selects the
skip-already-correct behaviour of the chunk loop. -/
def cros_ec_flash_write (dev : cros_ec_dev) (ec : ECFlash) (data : List Nat)
    (offset : Nat) : Except EcError ECFlash × List FlashTrans :=
  if ec.burst = 0 then (.error .unsupported, [])
  else if ec.size < offset + data.length then (.error .outOfRange, [])
  else
    let r := flashWriteGo dev.optimise_flash_write ec.burst ec.contents offset data
    (.ok { ec with contents := r.1 }, r.2)

/-- Modelled from the spec: cros_ec_flash_read (declared at
src/include/cros_ec.h lines 311-327, body outside the given sources) — reads
an arbitrary amount of data by repeatedly reading chunks bounded by the
per-transaction maximum; an out-of-range request fails before any transport
traffic. -/
def cros_ec_flash_read (ec : ECFlash) (offset n : Nat) :
    Except EcError (List Nat) × List FlashTrans :=
  if ec.burst = 0 then (.error .unsupported, [])
  else if ec.size < offset + n then (.error .outOfRange, [])
  else
    let r := flashReadGo ec.burst ec.contents offset n
    (.ok r.1, r.2)

theorem readBytes_length (f : Nat → Nat) (off n : Nat) :
    (readBytes f off n).length = n := by
  simp [readBytes]

theorem writeBytes_lt (f : Nat → Nat) (off : Nat) (d : List Nat) (a : Nat)
    (h : a < off) : writeBytes f off d a = f a := by
  simp [writeBytes, h]

theorem writeBytes_ge (f : Nat → Nat) (off : Nat) (d : List Nat) (a : Nat)
    (h : off + d.length ≤ a) : writeBytes f off d a = f a := by
  have h1 : ¬a < off := by omega
  simp only [writeBytes, h1, if_false]
  exact List.getD_eq_default _ _ (by omega)

theorem writeBytes_getElem (f : Nat → Nat) (off : Nat) (d : List Nat) (a : Nat)
    (h1 : off ≤ a) (h2 : a - off < d.length) :
    writeBytes f off d a = d[a - off] := by
  have h1' : ¬a < off := by omega
  simp only [writeBytes, h1', if_false]
  exact List.getD_eq_getElem _ _ h2

theorem readBytes_getElem (f : Nat → Nat) (off n i : Nat)
    (h : i < (readBytes f off n).length) : (readBytes f off n)[i] = f (off + i) := by
  simp [readBytes]

theorem readBytes_take (f : Nat → Nat) (off n k : Nat) :
    (readBytes f off n).take k = readBytes f off (min k n) := by
  simp [readBytes, ← List.map_take, List.take_range]

theorem readBytes_drop (f : Nat → Nat) (off n k : Nat) :
    (readBytes f off n).drop k = readBytes f (off + k) (n - k) := by
  apply List.ext_getElem
  · simp [readBytes]
  · intro i h1 h2
    simp only [List.getElem_drop, readBytes_getElem]
    congr 1
    omega

theorem writeBytes_nil_apply (f : Nat → Nat) (off a : Nat) :
    writeBytes f off [] a = f a := by
  simp [writeBytes]

theorem writeBytes_readBytes_apply (f : Nat → Nat) (off n a : Nat) :
    writeBytes f off (readBytes f off n) a = f a := by
  rcases lt_or_le a off with h1 | h1
  · exact writeBytes_lt _ _ _ _ h1
  · rcases lt_or_le (a - off) n with h2 | h2
    · rw [writeBytes_getElem _ _ _ _ h1 (by simp [readBytes_length]; omega)]
      rw [readBytes_getElem]
      congr 1
      omega
    · exact writeBytes_ge _ _ _ _ (by simp [readBytes_length]; omega)

theorem writeBytes_congr_apply (f g : Nat → Nat) (off : Nat) (d : List Nat)
    (a : Nat) (h : f a = g a) : writeBytes f off d a = writeBytes g off d a := by
  simp [writeBytes, h]

theorem writeBytes_take_drop (f : Nat → Nat) (off b : Nat) (d : List Nat)
    (a : Nat) :
    writeBytes (writeBytes f off (d.take b)) (off + (d.take b).length)
      (d.drop b) a = writeBytes f off d a := by
  have hc : (d.take b).length = min b d.length := by simp
  rcases lt_or_le a off with h1 | h1
  · rw [writeBytes_lt _ _ _ _ (by omega), writeBytes_lt _ _ _ _ h1,
      writeBytes_lt _ _ _ _ h1]
  · rcases lt_or_le (a - off) (d.take b).length with h2 | h2
    · rw [writeBytes_lt _ _ _ _ (by omega)]
      rw [writeBytes_getElem _ _ _ _ h1 h2]
      rw [writeBytes_getElem _ _ _ _ h1 (by omega)]
      simp [List.getElem_take]
    · rcases lt_or_le (a - off) d.length with h3 | h3
      · have hbd : b < d.length := by omega
        have hlen : (d.take b).length = b := by omega
        rw [writeBytes_getElem _ _ _ _ (by omega)
          (by simp [List.length_drop]; omega)]
        rw [writeBytes_getElem _ _ _ _ h1 h3]
        rw [List.getElem_drop]
        congr 1
        omega
      · rw [writeBytes_ge _ _ _ _ (by simp [List.length_drop]; omega)]
        rw [writeBytes_ge _ _ _ _ (by omega)]
        rw [writeBytes_ge _ _ _ _ (by omega)]

theorem flashWriteGo_fst (opt : Bool) (b : Nat) (hb : 0 < b) :
    ∀ (n : Nat) (d : List Nat), d.length ≤ n → ∀ (f : Nat → Nat) (off a : Nat),
      (flashWriteGo opt b f off d).1 a = writeBytes f off d a := by
  intro n
  induction n with
  | zero =>
    intro d hd f off a
    have hdn : d = [] := List.eq_nil_of_length_eq_zero (by omega)
    subst hdn
    rw [flashWriteGo]
    simp [writeBytes_nil_apply]
  | succ n ih =>
    intro d hd f off a
    by_cases hdn : d = []
    · subst hdn
      rw [flashWriteGo]
      simp [writeBytes_nil_apply]
    · have hcond : ¬(b = 0 ∨ d = []) := by
        push_neg
        exact ⟨by omega, hdn⟩
      have hdl : 0 < d.length := List.length_pos.mpr hdn
      have hdrop : (d.drop b).length ≤ n := by
        simp only [List.length_drop]
        omega
      rw [flashWriteGo, dif_neg hcond]
      cases opt with
      | false =>
        simp only [Bool.false_eq_true, if_false]
        rw [ih _ hdrop]
        exact writeBytes_take_drop f off b d a
      | true =>
        simp only [if_true]
        by_cases hskip : readBytes f off (d.take b).length = d.take b
        · rw [if_pos hskip]
          simp only
          rw [ih _ hdrop]
          rw [← writeBytes_take_drop f off b d a]
          apply writeBytes_congr_apply
          rw [← hskip]
          exact (writeBytes_readBytes_apply f off _ a).symm
        · rw [if_neg hskip]
          simp only
          rw [ih _ hdrop]
          exact writeBytes_take_drop f off b d a

theorem take_id_of_readBytes (f : Nat → Nat) (off b : Nat) (d : List Nat)
    (hid : readBytes f off d.length = d) :
    readBytes f off (d.take b).length = d.take b := by
  calc readBytes f off (d.take b).length
      = readBytes f off (min b d.length) := by rw [List.length_take]
    _ = (readBytes f off d.length).take b := (readBytes_take f off d.length b).symm
    _ = d.take b := by rw [hid]

theorem drop_id_of_readBytes (f : Nat → Nat) (off b : Nat) (d : List Nat)
    (hid : readBytes f off d.length = d) :
    readBytes f (off + (d.take b).length) (d.drop b).length = d.drop b := by
  rcases le_or_lt b d.length with hbl | hbl
  · have h1 : (d.take b).length = b := by simp; omega
    have h2 : (d.drop b).length = d.length - b := by simp
    rw [h1, h2]
    calc readBytes f (off + b) (d.length - b)
        = (readBytes f off d.length).drop b := (readBytes_drop f off d.length b).symm
      _ = d.drop b := by rw [hid]
  · have h2 : (d.drop b).length = 0 := by simp; omega
    have h3 : d.drop b = [] := List.drop_eq_nil_of_le (by omega)
    rw [h2, h3]
    rfl

/-- The number of chunks a transfer of len bytes needs with a per-transaction
maximum of b bytes. -/
def numChunks (len b : Nat) : Nat := (len + b - 1) / b

theorem numChunks_zero (b : Nat) (hb : 0 < b) : numChunks 0 b = 0 := by
  unfold numChunks
  exact Nat.div_eq_of_lt (by omega)

theorem numChunks_step (len b : Nat) (hb : 0 < b) (hl : 0 < len) :
    numChunks len b = numChunks (len - b) b + 1 := by
  unfold numChunks
  rw [show len + b - 1 = (len - 1) + b by omega, Nat.add_div_right _ hb]
  rcases le_or_lt b len with hbl | hbl
  · rw [show len - b + b - 1 = len - 1 by omega]
  · rw [show len - b = 0 by omega]
    rw [Nat.div_eq_of_lt (by omega), Nat.div_eq_of_lt (by omega)]

theorem isWrite_eq_false_of_isRead (t : FlashTrans) (h : t.isRead = true) :
    t.isWrite = false := by
  cases t with
  | readChunk o l => rfl
  | writeChunk o d => simp [FlashTrans.isRead] at h

theorem flashWriteGo_skip_reads (b : Nat) (hb : 0 < b) :
    ∀ (n : Nat) (d : List Nat), d.length ≤ n → ∀ (f : Nat → Nat) (off : Nat),
      readBytes f off d.length = d →
      ∀ t ∈ (flashWriteGo true b f off d).2, t.isRead = true := by
  intro n
  induction n with
  | zero =>
    intro d hd f off hid t ht
    have hdn : d = [] := List.eq_nil_of_length_eq_zero (by omega)
    subst hdn
    rw [flashWriteGo] at ht
    simp at ht
  | succ n ih =>
    intro d hd f off hid t ht
    by_cases hdn : d = []
    · subst hdn
      rw [flashWriteGo] at ht
      simp at ht
    · have hcond : ¬(b = 0 ∨ d = []) := by
        push_neg
        exact ⟨by omega, hdn⟩
      have hdl : 0 < d.length := List.length_pos.mpr hdn
      have hdrop : (d.drop b).length ≤ n := by
        simp only [List.length_drop]
        omega
      have hskip := take_id_of_readBytes f off b d hid
      rw [flashWriteGo, dif_neg hcond] at ht
      simp only [if_true, if_pos hskip] at ht
      rcases List.mem_cons.mp ht with h | h
      · subst h
        rfl
      · exact ih _ hdrop f (off + (d.take b).length)
          (drop_id_of_readBytes f off b d hid) t h

theorem flashWriteGo_plain_writes (b : Nat) (hb : 0 < b) :
    ∀ (n : Nat) (d : List Nat), d.length ≤ n → ∀ (f : Nat → Nat) (off : Nat),
      (∀ t ∈ (flashWriteGo false b f off d).2, t.isWrite = true) ∧
      ((flashWriteGo false b f off d).2.length = numChunks d.length b) := by
  intro n
  induction n with
  | zero =>
    intro d hd f off
    have hdn : d = [] := List.eq_nil_of_length_eq_zero (by omega)
    subst hdn
    rw [flashWriteGo]
    simp [numChunks_zero b hb]
  | succ n ih =>
    intro d hd f off
    by_cases hdn : d = []
    · subst hdn
      rw [flashWriteGo]
      simp [numChunks_zero b hb]
    · have hcond : ¬(b = 0 ∨ d = []) := by
        push_neg
        exact ⟨by omega, hdn⟩
      have hdl : 0 < d.length := List.length_pos.mpr hdn
      have hdrop : (d.drop b).length ≤ n := by
        simp only [List.length_drop]
        omega
      rw [flashWriteGo, dif_neg hcond]
      simp only [Bool.false_eq_true, if_false]
      obtain ⟨ihmem, ihcount⟩ := ih (d.drop b) hdrop
        (writeBytes f off (d.take b)) (off + (d.take b).length)
      constructor
      · intro t ht
        rcases List.mem_cons.mp ht with h | h
        · subst h
          rfl
        · exact ihmem t h
      · simp only [List.length_cons]
        rw [ihcount]
        simp only [List.length_drop]
        rw [← numChunks_step d.length b hb hdl]

theorem readBytes_append (f : Nat → Nat) (off p q : Nat) :
    readBytes f off (p + q) = readBytes f off p ++ readBytes f (off + p) q := by
  apply List.ext_getElem
  · simp [readBytes]
  · intro i h1 h2
    rw [readBytes_getElem]
    rcases lt_or_le i p with hip | hip
    · rw [List.getElem_append_left (by simp [readBytes_length]; omega)]
      rw [readBytes_getElem]
    · rw [List.getElem_append_right (by simp [readBytes_length]; omega)]
      rw [readBytes_getElem]
      simp only [readBytes_length]
      congr 1
      omega

theorem flashReadGo_fst (b : Nat) (hb : 0 < b) :
    ∀ (m n : Nat), n ≤ m → ∀ (f : Nat → Nat) (off : Nat),
      (flashReadGo b f off n).1 = readBytes f off n := by
  intro m
  induction m with
  | zero =>
    intro n hn f off
    have h0 : n = 0 := by omega
    subst h0
    rw [flashReadGo]
    simp
    rfl
  | succ m ih =>
    intro n hn f off
    by_cases h0 : n = 0
    · subst h0
      rw [flashReadGo]
      simp
      rfl
    · have hcond : ¬(b = 0 ∨ n = 0) := by
        push_neg
        exact ⟨by omega, h0⟩
      rw [flashReadGo, dif_neg hcond]
      simp only
      rw [ih (n - min b n) (by omega)]
      conv_rhs => rw [show n = min b n + (n - min b n) by omega]
      rw [readBytes_append]

theorem readBytes_writeBytes (f : Nat → Nat) (off : Nat) (d : List Nat) :
    readBytes (writeBytes f off d) off d.length = d := by
  apply List.ext_getElem
  · simp [readBytes_length]
  · intro i h1 h2
    rw [readBytes_getElem]
    rw [writeBytes_getElem _ _ _ _ (by omega) (by omega)]
    congr 1
    omega

/-- Composition of the chunked flash write with the chunked flash read of the
same range, the round-trip the spec's testable property describes. -/
def flashWriteThenRead (dev : cros_ec_dev) (ec : ECFlash) (data : List Nat)
    (offset : Nat) : Except EcError (List Nat) :=
  match cros_ec_flash_write dev ec data offset with
  | (.ok ecp, _) => (cros_ec_flash_read ecp offset data.length).1
  | (.error e, _) => .error e

/-- Claim C6: for every in-range offset and data block (of any length: zero,
one chunk, or many chunks), writing the block at the offset via the chunked
flash write and then reading the same number of bytes at the same offset via
the chunked flash read returns exactly the bytes written. -/
theorem c6_flash_round_trip (dev : cros_ec_dev) (ec : ECFlash) (data : List Nat)
    (offset : Nat) (hb : 0 < ec.burst) (hsz : offset + data.length ≤ ec.size) :
    flashWriteThenRead dev ec data offset = .ok data := by
  have hb0 : ¬ec.burst = 0 := by omega
  have hsz0 : ¬ec.size < offset + data.length := by omega
  have hw : cros_ec_flash_write dev ec data offset =
      (.ok { ec with contents :=
          (flashWriteGo dev.optimise_flash_write ec.burst ec.contents offset data).1 },
        (flashWriteGo dev.optimise_flash_write ec.burst ec.contents offset data).2) := by
    simp [cros_ec_flash_write, hb0, hsz0]
  unfold flashWriteThenRead
  rw [hw]
  simp only [cros_ec_flash_read]
  rw [if_neg hb0, if_neg hsz0]
  simp only
  rw [flashReadGo_fst ec.burst hb data.length data.length le_rfl]
  have hg : (flashWriteGo dev.optimise_flash_write ec.burst ec.contents offset data).1 =
      writeBytes ec.contents offset data :=
    funext fun a =>
      flashWriteGo_fst dev.optimise_flash_write ec.burst hb data.length data
        le_rfl ec.contents offset a
  rw [hg, readBytes_writeBytes]

theorem c6_flash_round_trip_witness :
    (0 : Nat) < 2 ∧
    flashWriteThenRead ⟨3, true, none⟩ ⟨fun _ => 0, 10, 2⟩ [1, 2, 3, 4, 5] 1 =
      .ok [1, 2, 3, 4, 5] :=
  ⟨by decide,
    c6_flash_round_trip ⟨3, true, none⟩ ⟨fun _ => 0, 10, 2⟩ [1, 2, 3, 4, 5] 1
      (by decide) (by decide)⟩

/-- Claim C5: for a flash write of data identical to the current flash
contents, the optimisation flag set makes every issued transaction a
read-chunk (zero write-chunk transactions), while with the flag clear the
loop issues exactly one write-chunk transaction per chunk; and for every
flash write whatsoever the result, in particular the final flash contents,
is identical whether the flag is set or clear. -/
theorem c5_flash_write_optimisation (dev : cros_ec_dev) (ec : ECFlash)
    (data : List Nat) (offset : Nat) (hb : 0 < ec.burst)
    (hsz : offset + data.length ≤ ec.size) :
    (readBytes ec.contents offset data.length = data →
      (∀ t ∈ (cros_ec_flash_write { dev with optimise_flash_write := true }
          ec data offset).2, t.isRead = true ∧ t.isWrite = false) ∧
      (cros_ec_flash_write { dev with optimise_flash_write := false }
          ec data offset).2.length = numChunks data.length ec.burst ∧
      (∀ t ∈ (cros_ec_flash_write { dev with optimise_flash_write := false }
          ec data offset).2, t.isWrite = true)) ∧
    (cros_ec_flash_write { dev with optimise_flash_write := true }
        ec data offset).1 =
      (cros_ec_flash_write { dev with optimise_flash_write := false }
        ec data offset).1 := by
  have hb0 : ¬ec.burst = 0 := by omega
  have hsz0 : ¬ec.size < offset + data.length := by omega
  have hwt : cros_ec_flash_write { dev with optimise_flash_write := true }
      ec data offset =
      (.ok { ec with contents :=
          (flashWriteGo true ec.burst ec.contents offset data).1 },
        (flashWriteGo true ec.burst ec.contents offset data).2) := by
    simp [cros_ec_flash_write, hb0, hsz0]
  have hwf : cros_ec_flash_write { dev with optimise_flash_write := false }
      ec data offset =
      (.ok { ec with contents :=
          (flashWriteGo false ec.burst ec.contents offset data).1 },
        (flashWriteGo false ec.burst ec.contents offset data).2) := by
    simp [cros_ec_flash_write, hb0, hsz0]
  constructor
  · intro hid
    refine ⟨?_, ?_, ?_⟩
    · intro t ht
      rw [hwt] at ht
      have hr := flashWriteGo_skip_reads ec.burst hb data.length data le_rfl
        ec.contents offset hid t ht
      exact ⟨hr, isWrite_eq_false_of_isRead t hr⟩
    · rw [hwf]
      exact (flashWriteGo_plain_writes ec.burst hb data.length data le_rfl
        ec.contents offset).2
    · intro t ht
      rw [hwf] at ht
      exact (flashWriteGo_plain_writes ec.burst hb data.length data le_rfl
        ec.contents offset).1 t ht
  · rw [hwt, hwf]
    simp only
    have h1 : (flashWriteGo true ec.burst ec.contents offset data).1 =
        writeBytes ec.contents offset data :=
      funext fun a =>
        flashWriteGo_fst true ec.burst hb data.length data le_rfl
          ec.contents offset a
    have h2 : (flashWriteGo false ec.burst ec.contents offset data).1 =
        writeBytes ec.contents offset data :=
      funext fun a =>
        flashWriteGo_fst false ec.burst hb data.length data le_rfl
          ec.contents offset a
    rw [h1, h2]

theorem c5_flash_write_optimisation_witness :
    readBytes (fun _ => 0) 0 3 = [0, 0, 0] ∧
    (cros_ec_flash_write ⟨3, false, none⟩ ⟨fun _ => 0, 8, 2⟩ [0, 0, 0] 0).2.length =
      numChunks 3 2 :=
  ⟨rfl,
    ((c5_flash_write_optimisation ⟨3, true, none⟩ ⟨fun _ => 0, 8, 2⟩ [0, 0, 0] 0
      (by decide) (by decide)).1 rfl).2.1⟩
